import Mathlib

/-!
Verification of the curve mathematics in `addon/io_scs_tools/utils/curve.py`
(BlenderTools). The Python float arithmetic is modelled by exact arithmetic:
generic `LinearOrderedField` carriers for the purely rational computations
(Bernstein basis, Bezier evaluation, chord subdivision and the planar
segment-intersection scan of `curves_intersect`), and `ℝ` where the source
calls `math.sqrt`, `math.asin`, `math.atan` (`compute_smooth_curve_length`,
`compute_curve`, `set_direction`).
-/

/-- Value triple (x, y, z), the model of `mathutils.Vector` 3-vectors. -/
structure Vec3 (α : Type) where
  x : α
  y : α
  z : α
deriving DecidableEq, Repr

instance {α : Type} [Add α] : Add (Vec3 α) :=
  ⟨fun a b => ⟨a.x + b.x, a.y + b.y, a.z + b.z⟩⟩

instance {α : Type} [Sub α] : Sub (Vec3 α) :=
  ⟨fun a b => ⟨a.x - b.x, a.y - b.y, a.z - b.z⟩⟩

instance {α : Type} [Mul α] : SMul α (Vec3 α) :=
  ⟨fun c v => ⟨c * v.x, c * v.y, c * v.z⟩⟩

@[simp] theorem Vec3.add_x {α : Type} [Add α] (a b : Vec3 α) : (a + b).x = a.x + b.x := rfl

@[simp] theorem Vec3.add_y {α : Type} [Add α] (a b : Vec3 α) : (a + b).y = a.y + b.y := rfl

@[simp] theorem Vec3.add_z {α : Type} [Add α] (a b : Vec3 α) : (a + b).z = a.z + b.z := rfl

@[simp] theorem Vec3.sub_x {α : Type} [Sub α] (a b : Vec3 α) : (a - b).x = a.x - b.x := rfl

@[simp] theorem Vec3.sub_y {α : Type} [Sub α] (a b : Vec3 α) : (a - b).y = a.y - b.y := rfl

@[simp] theorem Vec3.sub_z {α : Type} [Sub α] (a b : Vec3 α) : (a - b).z = a.z - b.z := rfl

@[simp] theorem Vec3.smul_x {α : Type} [Mul α] (c : α) (v : Vec3 α) : (c • v).x = c * v.x := rfl

@[simp] theorem Vec3.smul_y {α : Type} [Mul α] (c : α) (v : Vec3 α) : (c • v).y = c * v.y := rfl

@[simp] theorem Vec3.smul_z {α : Type} [Mul α] (c : α) (v : Vec3 α) : (c • v).z = c * v.z := rfl

@[simp] theorem Vec3.mk_sub_mk {α : Type} [Sub α] (a b c d e f : α) :
    (⟨a, b, c⟩ : Vec3 α) - ⟨d, e, f⟩ = ⟨a - d, b - e, c - f⟩ := rfl

/-- Cubic Bernstein basis at `float_t`, exactly as `compute_bernstein` in the
source: `q = 1 - t`, returning `(q*q*q, 3*t*q*q, 3*t*t*q, t*t*t)`. -/
def compute_bernstein {α : Type} [Field α] (float_t : α) : α × α × α × α :=
  let q := 1 - float_t
  (q * q * q, 3 * float_t * q * q, 3 * float_t * float_t * q, float_t * float_t * float_t)

/-- Cubic Bezier evaluation, per-axis linear combination of the four control
points weighted by the Bernstein coefficients, as `evaluate_bezier_curve`. -/
def evaluate_bezier_curve {α : Type} [Field α] (vec1 vec2 vec3 vec4 : Vec3 α) (float_t : α) :
    Vec3 α :=
  let c := compute_bernstein float_t
  ⟨c.1 * vec1.x + c.2.1 * vec2.x + c.2.2.1 * vec3.x + c.2.2.2 * vec4.x,
   c.1 * vec1.y + c.2.1 * vec2.y + c.2.2.1 * vec3.y + c.2.2.2 * vec4.y,
   c.1 * vec1.z + c.2.1 * vec2.z + c.2.2.1 * vec3.z + c.2.2.2 * vec4.z⟩

/-- Waypoint curve helper, as `smooth_curve` in the source: control polygon
`point1, point1 + tang1, point2 - tang2, point2` evaluated at `coef`. -/
def smooth_curve {α : Type} [Field α] (point1 tang1 point2 tang2 : Vec3 α) (coef : α) :
    Vec3 α :=
  evaluate_bezier_curve point1 (point1 + tang1) (point2 - tang2) point2 coef

/-- Evaluating the curve at parameter 0 yields the starting waypoint exactly. -/
theorem smooth_curve_zero {α : Type} [Field α] (p1 t1 p2 t2 : Vec3 α) :
    smooth_curve p1 t1 p2 t2 0 = p1 := by
  obtain ⟨a, b, c⟩ := p1
  simp only [smooth_curve, evaluate_bezier_curve, compute_bernstein, Vec3.add_x, Vec3.add_y,
    Vec3.add_z, Vec3.sub_x, Vec3.sub_y, Vec3.sub_z, Vec3.mk.injEq]
  refine ⟨by ring, by ring, by ring⟩

/-- Evaluating the curve at parameter 1 yields the ending waypoint exactly. -/
theorem smooth_curve_one {α : Type} [Field α] (p1 t1 p2 t2 : Vec3 α) :
    smooth_curve p1 t1 p2 t2 1 = p2 := by
  obtain ⟨a, b, c⟩ := p2
  simp only [smooth_curve, evaluate_bezier_curve, compute_bernstein, Vec3.add_x, Vec3.add_y,
    Vec3.add_z, Vec3.sub_x, Vec3.sub_y, Vec3.sub_z, Vec3.mk.injEq]
  refine ⟨by ring, by ring, by ring⟩

/-- C5: for every input `point1, tang1, point2, tang2`, `smooth_curve` at
`coef = 0` equals `point1` exactly, and at `coef = 1` equals `point2` exactly. -/
theorem c5_smooth_curve_endpoints (point1 tang1 point2 tang2 : Vec3 ℝ) :
    smooth_curve point1 tang1 point2 tang2 0 = point1 ∧
      smooth_curve point1 tang1 point2 tang2 1 = point2 :=
  ⟨smooth_curve_zero point1 tang1 point2 tang2, smooth_curve_one point1 tang1 point2 tang2⟩

/-- C8: the four cubic Bernstein coefficients returned by `compute_bernstein`
sum to exactly 1 for every real parameter (partition of unity). -/
theorem c8_bernstein_partition_of_unity (float_t : ℝ) :
    (compute_bernstein float_t).1 + (compute_bernstein float_t).2.1 +
      (compute_bernstein float_t).2.2.1 + (compute_bernstein float_t).2.2.2 = 1 := by
  simp only [compute_bernstein]
  ring

/-- Curve record capability used by `curves_intersect`: the "Length" scalar and
the "Bezier"/"Start", "Bezier"/"End" sub-records' "Position" and "Direction". -/
structure CurveRec (α : Type) where
  length : α
  startPos : Vec3 α
  startDir : Vec3 α
  endPos : Vec3 α
  endDir : Vec3 α
deriving DecidableEq, Repr

/-- Parameter handed to `smooth_curve` for the start of chord `i` in
`curves_intersect`: `pos / length` with `pos = i * (length / part_count)`. -/
def chordParamLo {α : Type} [Field α] (length : α) (n i : ℕ) : α :=
  ((i : α) * (length / (n : α))) / length

/-- Parameter handed to `smooth_curve` for the end of chord `i` in
`curves_intersect`: `(pos + step) / length` with `step = length / part_count`. -/
def chordParamHi {α : Type} [Field α] (length : α) (n i : ℕ) : α :=
  ((i : α) * (length / (n : α)) + length / (n : α)) / length

/-- Start point of chord `i` of a curve, as computed inside `curves_intersect`. -/
def chordStart {α : Type} [Field α] (c : CurveRec α) (n i : ℕ) : Vec3 α :=
  smooth_curve c.startPos c.startDir c.endPos c.endDir (chordParamLo c.length n i)

/-- End point of chord `i` of a curve, as computed inside `curves_intersect`. -/
def chordEnd {α : Type} [Field α] (c : CurveRec α) (n i : ℕ) : Vec3 α :=
  smooth_curve c.startPos c.startDir c.endPos c.endDir (chordParamHi c.length n i)

/-- Denominator of the planar (X/Z) segment-intersection system for the chord
pair `(i, j)`, exactly the `denom` expression of the source. -/
def denomAt {α : Type} [Field α] (c1 c2 : CurveRec α) (n i j : ℕ) : α :=
  ((chordEnd c2 n j).z - (chordStart c2 n j).z) * ((chordEnd c1 n i).x - (chordStart c1 n i).x) -
    ((chordEnd c2 n j).x - (chordStart c2 n j).x) * ((chordEnd c1 n i).z - (chordStart c1 n i).z)

/-- Numerator `nume_a` of the source's intersection system. -/
def numeA {α : Type} [Field α] (c1 c2 : CurveRec α) (n i j : ℕ) : α :=
  ((chordEnd c2 n j).x - (chordStart c2 n j).x) * ((chordStart c1 n i).z - (chordStart c2 n j).z) -
    ((chordEnd c2 n j).z - (chordStart c2 n j).z) * ((chordStart c1 n i).x - (chordStart c2 n j).x)

/-- Numerator `nume_b` of the source's intersection system. -/
def numeB {α : Type} [Field α] (c1 c2 : CurveRec α) (n i j : ℕ) : α :=
  ((chordEnd c1 n i).x - (chordStart c1 n i).x) * ((chordStart c1 n i).z - (chordStart c2 n j).z) -
    ((chordEnd c1 n i).z - (chordStart c1 n i).z) * ((chordStart c1 n i).x - (chordStart c2 n j).x)

/-- Parametric crossing position `mu_a` along curve 1's chord `i`. -/
def muA {α : Type} [Field α] (c1 c2 : CurveRec α) (n i j : ℕ) : α :=
  numeA c1 c2 n i j / denomAt c1 c2 n i j

/-- Parametric crossing position `mu_b` along curve 2's chord `j`. -/
def muB {α : Type} [Field α] (c1 c2 : CurveRec α) (n i j : ℕ) : α :=
  numeB c1 c2 n i j / denomAt c1 c2 n i j

/-- Outcome of one inner-loop iteration of `curves_intersect`: `skip` is the
source's `continue`, `abortNone` its `return None`, `point` its
`return curve_intersect`. -/
inductive ChordOutcome (α : Type) where
  | skip : ChordOutcome α
  | abortNone : ChordOutcome α
  | point : Vec3 α → ChordOutcome α
deriving DecidableEq, Repr

/-- One inner-loop iteration of `curves_intersect` on the chord pair `(i, j)`,
with the source's epsilon `0.01` and the `1 - epsilon` end threshold. -/
def chordOutcome {α : Type} [LinearOrderedField α] (c1 c2 : CurveRec α) (n i j : ℕ) :
    ChordOutcome α :=
  if |denomAt c1 c2 n i j| < 1 / 100 then ChordOutcome.skip
  else if muA c1 c2 n i j < 0 ∨ 1 < muA c1 c2 n i j ∨ muB c1 c2 n i j < 0 ∨ 1 < muB c1 c2 n i j then
    ChordOutcome.skip
  else if (muA c1 c2 n i j < 1 / 100 ∧ i = 0) ∨ (muB c1 c2 n i j < 1 / 100 ∧ j = 0) then
    ChordOutcome.abortNone
  else if (1 - 1 / 100 < muA c1 c2 n i j ∧ i = n - 1) ∨
      (1 - 1 / 100 < muB c1 c2 n i j ∧ j = n - 1) then
    ChordOutcome.abortNone
  else
    ChordOutcome.point
      ⟨(chordStart c1 n i).x + muA c1 c2 n i j * ((chordEnd c1 n i).x - (chordStart c1 n i).x),
       ((chordStart c1 n i).y + (chordEnd c1 n i).y + (chordStart c2 n j).y +
         (chordEnd c2 n j).y) / 4,
       (chordStart c1 n i).z + muA c1 c2 n i j * ((chordEnd c1 n i).z - (chordStart c1 n i).z)⟩

/-- Chord-index pairs visited by the two nested loops of `curves_intersect`,
in iteration order (outer `i` low-to-high, inner `j` low-to-high). -/
def pairList (n : ℕ) : List (ℕ × ℕ) :=
  (List.range n).flatMap (fun i => (List.range n).map (fun j => (i, j)))

/-- Scan of the chord pairs: `continue` moves on, `return None` and
`return curve_intersect` stop the whole scan, like the source's control flow. -/
def scanPairs {α : Type} [LinearOrderedField α] (c1 c2 : CurveRec α) (n : ℕ) :
    List (ℕ × ℕ) → Option (Vec3 α)
  | [] => none
  | (i, j) :: rest =>
    match chordOutcome c1 c2 n i j with
    | ChordOutcome.skip => scanPairs c1 c2 n rest
    | ChordOutcome.abortNone => none
    | ChordOutcome.point v => some v

/-- Intersection detector `curves_intersect` over a `part_count` of type `ℕ`:
the full double loop over chord pairs, returning the first non-skip outcome. -/
def curves_intersect {α : Type} [LinearOrderedField α] (c1 c2 : CurveRec α) (n : ℕ) :
    Option (Vec3 α) :=
  scanPairs c1 c2 n (pairList n)

/-- Python-faithful wrapper of `curves_intersect` over an integer `part_count`:
`length / part_count` raises `ZeroDivisionError` when `part_count = 0`, and a
negative `part_count` makes both `range` loops empty, returning `None`. -/
def curves_intersectChecked {α : Type} [LinearOrderedField α] (c1 c2 : CurveRec α)
    (part_count : ℤ) : Except String (Option (Vec3 α)) :=
  if part_count = 0 then Except.error "ZeroDivisionError"
  else Except.ok (curves_intersect c1 c2 part_count.toNat)

/-- C1 counterexample: with `part_count = 4`, chord index `i = 1`, the boundary
parameter passed to `smooth_curve` is exactly `1/4 = i/part_count`, for both a
curve of Length 5 and one of Length 7 — the parameter does not depend on the
"Length" value, refuting "not simply i/part_count". -/
theorem c1_counterexample :
    chordParamLo (5 : ℚ) 4 1 = 1 / 4 ∧ chordParamLo (7 : ℚ) 4 1 = 1 / 4 := by
  constructor <;> norm_num [chordParamLo]

/-- C1 (amended): for every nonzero "Length", the chord boundary parameters
computed by `curves_intersect` are exactly `i / part_count` and
`(i + 1) / part_count` — the Length cancels, so the subdivision is uniform in
the Bezier parameter `t`. -/
theorem c1_amended_uniform_in_t (L : ℚ) (n i : ℕ) (hL : L ≠ 0) :
    chordParamLo L n i = (i : ℚ) / (n : ℚ) ∧
      chordParamHi L n i = ((i : ℚ) + 1) / (n : ℚ) := by
  unfold chordParamLo chordParamHi
  rcases eq_or_ne (n : ℚ) 0 with hn | hn
  · rw [hn]
    simp [div_zero]
  · constructor
    · field_simp
      ring
    · field_simp
      ring

/-- C1 amended witness at Length 5, `part_count = 4`, `i = 1`. -/
theorem c1_amended_witness :
    (5 : ℚ) ≠ 0 ∧
      (chordParamLo (5 : ℚ) 4 1 = ((1 : ℕ) : ℚ) / ((4 : ℕ) : ℚ) ∧
        chordParamHi (5 : ℚ) 4 1 = (((1 : ℕ) : ℚ) + 1) / ((4 : ℕ) : ℚ)) :=
  ⟨by norm_num, c1_amended_uniform_in_t 5 4 1 (by norm_num)⟩

/-- Unfolding equation for `scanPairs` on a cons cell. -/
theorem scanPairs_cons {α : Type} [LinearOrderedField α] (c1 c2 : CurveRec α) (n i j : ℕ)
    (l : List (ℕ × ℕ)) :
    scanPairs c1 c2 n ((i, j) :: l) =
      match chordOutcome c1 c2 n i j with
      | ChordOutcome.skip => scanPairs c1 c2 n l
      | ChordOutcome.abortNone => none
      | ChordOutcome.point v => some v := rfl

/-- Skip outcomes reduce the scan to the tail. -/
theorem scanPairs_cons_skip {α : Type} [LinearOrderedField α] (c1 c2 : CurveRec α) (n i j : ℕ)
    (l : List (ℕ × ℕ)) (h : chordOutcome c1 c2 n i j = ChordOutcome.skip) :
    scanPairs c1 c2 n ((i, j) :: l) = scanPairs c1 c2 n l := by
  rw [scanPairs_cons, h]

/-- Abort outcomes stop the scan with `none`. -/
theorem scanPairs_cons_abort {α : Type} [LinearOrderedField α] (c1 c2 : CurveRec α) (n i j : ℕ)
    (l : List (ℕ × ℕ)) (h : chordOutcome c1 c2 n i j = ChordOutcome.abortNone) :
    scanPairs c1 c2 n ((i, j) :: l) = none := by
  rw [scanPairs_cons, h]

/-- Chord pairs whose outcome is `skip` (the source's `continue`) do not affect
the rest of the scan. -/
theorem scanPairs_append_skip {α : Type} [LinearOrderedField α] (c1 c2 : CurveRec α) (n : ℕ)
    (l1 l : List (ℕ × ℕ))
    (h : ∀ p ∈ l1, chordOutcome c1 c2 n p.1 p.2 = ChordOutcome.skip) :
    scanPairs c1 c2 n (l1 ++ l) = scanPairs c1 c2 n l := by
  induction l1 with
  | nil => rfl
  | cons p rest ih =>
    obtain ⟨pi, pj⟩ := p
    have hp : chordOutcome c1 c2 n pi pj = ChordOutcome.skip := h (pi, pj) (by simp)
    have hrest : ∀ q ∈ rest, chordOutcome c1 c2 n q.1 q.2 = ChordOutcome.skip := by
      intro q hq
      exact h q (by simp [hq])
    rw [List.cons_append, scanPairs_cons_skip c1 c2 n pi pj (rest ++ l) hp]
    exact ih hrest

/-- Qualifying crossing on a start/end boundary of a first/last chord yields the
source's early `return None`. -/
theorem chordOutcome_boundary_abort {α : Type} [LinearOrderedField α] (c1 c2 : CurveRec α)
    (n i j : ℕ)
    (hden : 1 / 100 ≤ |denomAt c1 c2 n i j|)
    (hma0 : 0 ≤ muA c1 c2 n i j) (hma1 : muA c1 c2 n i j ≤ 1)
    (hmb0 : 0 ≤ muB c1 c2 n i j) (hmb1 : muB c1 c2 n i j ≤ 1)
    (hbound : (muA c1 c2 n i j < 1 / 100 ∧ i = 0) ∨ (muB c1 c2 n i j < 1 / 100 ∧ j = 0) ∨
      (1 - 1 / 100 < muA c1 c2 n i j ∧ i = n - 1) ∨
      (1 - 1 / 100 < muB c1 c2 n i j ∧ j = n - 1)) :
    chordOutcome c1 c2 n i j = ChordOutcome.abortNone := by
  unfold chordOutcome
  rw [if_neg (not_lt.mpr hden)]
  rw [if_neg (by push_neg; exact ⟨hma0, hma1, hmb0, hmb1⟩)]
  rcases hbound with h | h | h | h
  · rw [if_pos (Or.inl h)]
  · rw [if_pos (Or.inr h)]
  · by_cases hfirst : (muA c1 c2 n i j < 1 / 100 ∧ i = 0) ∨ (muB c1 c2 n i j < 1 / 100 ∧ j = 0)
    · rw [if_pos hfirst]
    · rw [if_neg hfirst, if_pos (Or.inl h)]
  · by_cases hfirst : (muA c1 c2 n i j < 1 / 100 ∧ i = 0) ∨ (muB c1 c2 n i j < 1 / 100 ∧ j = 0)
    · rw [if_pos hfirst]
    · rw [if_neg hfirst, if_pos (Or.inr h)]

/-- C2: if the chord-pair scan arrives (all earlier pairs skipped) at a
qualifying crossing (`|denom| ≥ 0.01`, `mu_a ∈ [0,1]`, `mu_b ∈ [0,1]`) with
`mu_a < 0.01` on chord `i = 0`, or `mu_b < 0.01` on `j = 0`, or `mu_a > 0.99`
on `i = part_count - 1`, or `mu_b > 0.99` on `j = part_count - 1`, then
`curves_intersect` returns `none` for the whole curve pair, whatever chord
pairs `l2` remain unexamined after that point. -/
theorem c2_boundary_early_return (c1 c2 : CurveRec ℚ) (n : ℕ) (l1 l2 : List (ℕ × ℕ)) (i j : ℕ)
    (hdec : pairList n = l1 ++ (i, j) :: l2)
    (hskip : ∀ p ∈ l1, chordOutcome c1 c2 n p.1 p.2 = ChordOutcome.skip)
    (hden : 1 / 100 ≤ |denomAt c1 c2 n i j|)
    (hma0 : 0 ≤ muA c1 c2 n i j) (hma1 : muA c1 c2 n i j ≤ 1)
    (hmb0 : 0 ≤ muB c1 c2 n i j) (hmb1 : muB c1 c2 n i j ≤ 1)
    (hbound : (muA c1 c2 n i j < 1 / 100 ∧ i = 0) ∨ (muB c1 c2 n i j < 1 / 100 ∧ j = 0) ∨
      (1 - 1 / 100 < muA c1 c2 n i j ∧ i = n - 1) ∨
      (1 - 1 / 100 < muB c1 c2 n i j ∧ j = n - 1)) :
    curves_intersect c1 c2 n = none := by
  unfold curves_intersect
  rw [hdec, scanPairs_append_skip c1 c2 n l1 ((i, j) :: l2) hskip]
  exact scanPairs_cons_abort c1 c2 n i j l2
    (chordOutcome_boundary_abort c1 c2 n i j hden hma0 hma1 hmb0 hmb1 hbound)

/-- Concrete curve record along the X axis used in witnesses: straight segment
from the origin to (100, 0, 0), Length 100, zero tangents. -/
def cexA : CurveRec ℚ :=
  ⟨100, ⟨0, 0, 0⟩, ⟨0, 0, 0⟩, ⟨100, 0, 0⟩, ⟨0, 0, 0⟩⟩

/-- Concrete curve record crossing `cexA` near its start: straight segment from
(1/2, 0, -1) to (1/2, 0, 1), Length 2, zero tangents. -/
def cexB : CurveRec ℚ :=
  ⟨2, ⟨1 / 2, 0, -1⟩, ⟨0, 0, 0⟩, ⟨1 / 2, 0, 1⟩, ⟨0, 0, 0⟩⟩

/-- C2 witness: with `part_count = 1` the only chord pair of `cexA`/`cexB` is a
qualifying crossing with `mu_a = 1/200 < 0.01` on chord `i = 0`, and
`curves_intersect` returns `none`. -/
theorem c2_witness :
    pairList 1 = [] ++ (0, 0) :: [] ∧
      (1 : ℚ) / 100 ≤ |denomAt cexA cexB 1 0 0| ∧
      0 ≤ muA cexA cexB 1 0 0 ∧ muA cexA cexB 1 0 0 ≤ 1 ∧
      0 ≤ muB cexA cexB 1 0 0 ∧ muB cexA cexB 1 0 0 ≤ 1 ∧
      muA cexA cexB 1 0 0 < 1 / 100 ∧
      curves_intersect cexA cexB 1 = none := by
  have hden : denomAt cexA cexB 1 0 0 = 200 := by
    norm_num [denomAt, chordStart, chordEnd, chordParamLo, chordParamHi, cexA, cexB,
      smooth_curve, evaluate_bezier_curve, compute_bernstein]
  have hna : numeA cexA cexB 1 0 0 = 1 := by
    norm_num [numeA, chordStart, chordEnd, chordParamLo, chordParamHi, cexA, cexB,
      smooth_curve, evaluate_bezier_curve, compute_bernstein]
  have hnb : numeB cexA cexB 1 0 0 = 100 := by
    norm_num [numeB, chordStart, chordEnd, chordParamLo, chordParamHi, cexA, cexB,
      smooth_curve, evaluate_bezier_curve, compute_bernstein]
  have hmuA : muA cexA cexB 1 0 0 = 1 / 200 := by
    rw [muA, hna, hden]
  have hmuB : muB cexA cexB 1 0 0 = 1 / 2 := by
    rw [muB, hnb, hden]
    norm_num
  refine ⟨rfl, ?_, ?_, ?_, ?_, ?_, ?_, ?_⟩
  · rw [hden]; norm_num
  · rw [hmuA]; norm_num
  · rw [hmuA]; norm_num
  · rw [hmuB]; norm_num
  · rw [hmuB]; norm_num
  · rw [hmuA]; norm_num
  · exact c2_boundary_early_return cexA cexB 1 [] [] 0 0 rfl (by simp)
      (by rw [hden]; norm_num) (by rw [hmuA]; norm_num) (by rw [hmuA]; norm_num)
      (by rw [hmuB]; norm_num) (by rw [hmuB]; norm_num)
      (Or.inl ⟨by rw [hmuA]; norm_num, rfl⟩)

/-- Euclidean norm of a 3-vector, the model of `mathutils.Vector.length` and of
the local `length` helper in `set_direction`. -/
noncomputable def dist3 (v : Vec3 ℝ) : ℝ :=
  Real.sqrt (v.x * v.x + v.y * v.y + v.z * v.z)

/-- Norm of a vector supported on the X axis. -/
theorem dist3_single (a : ℝ) : dist3 ⟨a, 0, 0⟩ = |a| := by
  unfold dist3
  simp only [mul_zero, add_zero]
  rw [show a * a = a ^ 2 by ring]
  exact Real.sqrt_sq_eq_abs a

/-- Triangle inequality for `dist3` on sums. -/
theorem dist3_add_le (u v : Vec3 ℝ) : dist3 (u + v) ≤ dist3 u + dist3 v := by
  obtain ⟨a, b, c⟩ := u
  obtain ⟨d, e, f⟩ := v
  unfold dist3
  simp only [Vec3.add_x, Vec3.add_y, Vec3.add_z]
  have hA : (0 : ℝ) ≤ a * a + b * b + c * c := by
    nlinarith [mul_self_nonneg a, mul_self_nonneg b, mul_self_nonneg c]
  have hB : (0 : ℝ) ≤ d * d + e * e + f * f := by
    nlinarith [mul_self_nonneg d, mul_self_nonneg e, mul_self_nonneg f]
  have hsA : (0 : ℝ) ≤ Real.sqrt (a * a + b * b + c * c) := Real.sqrt_nonneg _
  have hsB : (0 : ℝ) ≤ Real.sqrt (d * d + e * e + f * f) := Real.sqrt_nonneg _
  have hsqA : Real.sqrt (a * a + b * b + c * c) ^ 2 = a * a + b * b + c * c := by
    rw [sq]
    exact Real.mul_self_sqrt hA
  have hsqB : Real.sqrt (d * d + e * e + f * f) ^ 2 = d * d + e * e + f * f := by
    rw [sq]
    exact Real.mul_self_sqrt hB
  have hDsq : (a * d + b * e + c * f) ^ 2 ≤ (a * a + b * b + c * c) * (d * d + e * e + f * f) := by
    nlinarith [sq_nonneg (a * e - b * d), sq_nonneg (a * f - c * d), sq_nonneg (b * f - c * e)]
  have hD : a * d + b * e + c * f ≤
      Real.sqrt (a * a + b * b + c * c) * Real.sqrt (d * d + e * e + f * f) := by
    by_contra hcon
    push_neg at hcon
    have hprod : (0 : ℝ) ≤ Real.sqrt (a * a + b * b + c * c) * Real.sqrt (d * d + e * e + f * f) :=
      mul_nonneg hsA hsB
    nlinarith [hDsq, hsqA, hsqB, hcon, hprod]
  calc Real.sqrt ((a + d) * (a + d) + (b + e) * (b + e) + (c + f) * (c + f))
      ≤ Real.sqrt ((Real.sqrt (a * a + b * b + c * c) +
          Real.sqrt (d * d + e * e + f * f)) ^ 2) := by
        apply Real.sqrt_le_sqrt
        nlinarith [hD, hsqA, hsqB]
    _ = Real.sqrt (a * a + b * b + c * c) + Real.sqrt (d * d + e * e + f * f) :=
        Real.sqrt_sq (by positivity)

/-- Telescoping identity for vector differences. -/
theorem Vec3.sub_add_sub {α : Type} [Field α] (a b c : Vec3 α) : (a - b) + (b - c) = a - c := by
  obtain ⟨a1, a2, a3⟩ := a
  obtain ⟨b1, b2, b3⟩ := b
  obtain ⟨c1, c2, c3⟩ := c
  simp only [Vec3.mk_sub_mk]
  show Vec3.mk _ _ _ = _
  simp only [Vec3.mk.injEq]
  refine ⟨by ring, by ring, by ring⟩

/-- Triangle inequality for `dist3` on differences. -/
theorem dist3_sub_le (a b c : Vec3 ℝ) : dist3 (a - c) ≤ dist3 (a - b) + dist3 (b - c) := by
  have h := dist3_add_le (a - b) (b - c)
  rwa [Vec3.sub_add_sub] at h

/-- Sample point used by `compute_smooth_curve_length`: the running `start_pos`
is `point1` before the loop and `smooth_curve` at accumulated `coef = k / n`
afterwards (exact arithmetic makes the accumulated `coef` equal `k * (1/n)`). -/
noncomputable def sampleAt (p1 t1 p2 t2 : Vec3 ℝ) (n k : ℕ) : Vec3 ℝ :=
  if k = 0 then p1 else smooth_curve p1 t1 p2 t2 ((k : ℝ) / (n : ℝ))

/-- Arc-length estimator `compute_smooth_curve_length`: accumulates the
Euclidean distance `(start_pos - cpos).length` over the `measure_steps` loop
iterations. -/
noncomputable def compute_smooth_curve_length (p1 t1 p2 t2 : Vec3 ℝ) (measure_steps : ℕ) : ℝ :=
  ∑ ii in Finset.range measure_steps,
    dist3 (sampleAt p1 t1 p2 t2 measure_steps ii - sampleAt p1 t1 p2 t2 measure_steps (ii + 1))

/-- Python-faithful wrapper of the estimator over an integer `measure_steps`:
`1.0 / float(measure_steps)` raises `ZeroDivisionError` when it is 0, and a
negative value makes `range(measure_steps)` empty, silently returning `0.0`. -/
noncomputable def compute_smooth_curve_lengthChecked (p1 t1 p2 t2 : Vec3 ℝ)
    (measure_steps : ℤ) : Except String ℝ :=
  if measure_steps = 0 then Except.error "ZeroDivisionError"
  else Except.ok (compute_smooth_curve_length p1 t1 p2 t2 measure_steps.toNat)

/-- Doubling the sample count aligns the even samples with the original ones. -/
theorem sampleAt_double (p1 t1 p2 t2 : Vec3 ℝ) (n k : ℕ) :
    sampleAt p1 t1 p2 t2 (2 * n) (2 * k) = sampleAt p1 t1 p2 t2 n k := by
  unfold sampleAt
  rcases Nat.eq_zero_or_pos k with hk | hk
  · subst hk
    simp
  · have h2 : ¬ 2 * k = 0 := by omega
    have h1 : ¬ k = 0 := by omega
    rw [if_neg h2, if_neg h1]
    have hcast : ((2 * k : ℕ) : ℝ) / ((2 * n : ℕ) : ℝ) = (k : ℝ) / (n : ℝ) := by
      push_cast
      rw [mul_div_mul_left _ _ (by norm_num : (2 : ℝ) ≠ 0)]
    rw [hcast]

/-- Splitting a sum over `range (2 * n)` into consecutive pairs. -/
theorem sum_range_double (f : ℕ → ℝ) (n : ℕ) :
    ∑ k in Finset.range (2 * n), f k = ∑ k in Finset.range n, (f (2 * k) + f (2 * k + 1)) := by
  induction n with
  | zero => simp
  | succ m ih =>
    have h2 : 2 * (m + 1) = (2 * m + 1) + 1 := by ring
    rw [h2, Finset.sum_range_succ, Finset.sum_range_succ, ih, Finset.sum_range_succ]
    ring

/-- C4 (amended): for fixed endpoints and tangents the arc-length estimate is
monotone under doubling the step count, `L(n) ≤ L(2n)`: refining each chord
into two halves can only lengthen the piecewise-linear approximation (triangle
inequality). General monotonicity in `m ≥ n` fails, see the counterexample. -/
theorem c4_amended_doubling_mono (point1 tang1 point2 tang2 : Vec3 ℝ) (n : ℕ) :
    compute_smooth_curve_length point1 tang1 point2 tang2 n ≤
      compute_smooth_curve_length point1 tang1 point2 tang2 (2 * n) := by
  unfold compute_smooth_curve_length
  rw [sum_range_double]
  refine Finset.sum_le_sum ?_
  intro k _
  have e1 : sampleAt point1 tang1 point2 tang2 (2 * n) (2 * k) =
      sampleAt point1 tang1 point2 tang2 n k := sampleAt_double point1 tang1 point2 tang2 n k
  have e2 : sampleAt point1 tang1 point2 tang2 (2 * n) (2 * k + 2) =
      sampleAt point1 tang1 point2 tang2 n (k + 1) := by
    rw [show 2 * k + 2 = 2 * (k + 1) by ring,
      sampleAt_double point1 tang1 point2 tang2 n (k + 1)]
  rw [← e1, ← e2]
  exact dist3_sub_le (sampleAt point1 tang1 point2 tang2 (2 * n) (2 * k))
    (sampleAt point1 tang1 point2 tang2 (2 * n) (2 * k + 1))
    (sampleAt point1 tang1 point2 tang2 (2 * n) (2 * k + 2))

/-- Backtracking degenerate curve used against general step-monotonicity: with
`point1 = point2 = 0`, `tang1 = (1,0,0)`, `tang2 = (-1,0,0)` the control
polygon is `0, (1,0,0), (1,0,0), 0` and the x-coordinate is `3t - 3t²`, going
out and back along the X axis. -/
theorem loop_eval (t : ℝ) :
    smooth_curve (⟨0, 0, 0⟩ : Vec3 ℝ) ⟨1, 0, 0⟩ ⟨0, 0, 0⟩ ⟨-1, 0, 0⟩ t =
      ⟨3 * t - 3 * t ^ 2, 0, 0⟩ := by
  simp only [smooth_curve, evaluate_bezier_curve, compute_bernstein, Vec3.add_x, Vec3.add_y,
    Vec3.add_z, Vec3.sub_x, Vec3.sub_y, Vec3.sub_z, Vec3.mk.injEq]
  refine ⟨by ring, by ring, by ring⟩

/-- C4 counterexample: on the backtracking curve the estimate with 3 steps
(`4/3`) is strictly below the estimate with 2 steps (`3/2`), refuting
monotonicity for `m = 3 ≥ n = 2`. -/
theorem c4_counterexample :
    compute_smooth_curve_length ⟨0, 0, 0⟩ ⟨1, 0, 0⟩ ⟨0, 0, 0⟩ ⟨-1, 0, 0⟩ 3 <
      compute_smooth_curve_length ⟨0, 0, 0⟩ ⟨1, 0, 0⟩ ⟨0, 0, 0⟩ ⟨-1, 0, 0⟩ 2 := by
  have s20 : sampleAt (⟨0, 0, 0⟩ : Vec3 ℝ) ⟨1, 0, 0⟩ ⟨0, 0, 0⟩ ⟨-1, 0, 0⟩ 2 0 =
      (⟨0, 0, 0⟩ : Vec3 ℝ) := by
    simp [sampleAt]
  have s21 : sampleAt (⟨0, 0, 0⟩ : Vec3 ℝ) ⟨1, 0, 0⟩ ⟨0, 0, 0⟩ ⟨-1, 0, 0⟩ 2 1 =
      (⟨3 / 4, 0, 0⟩ : Vec3 ℝ) := by
    rw [sampleAt, if_neg (by norm_num : ¬ (1 : ℕ) = 0), loop_eval]
    norm_num [Vec3.mk.injEq]
  have s22 : sampleAt (⟨0, 0, 0⟩ : Vec3 ℝ) ⟨1, 0, 0⟩ ⟨0, 0, 0⟩ ⟨-1, 0, 0⟩ 2 2 =
      (⟨0, 0, 0⟩ : Vec3 ℝ) := by
    rw [sampleAt, if_neg (by norm_num : ¬ (2 : ℕ) = 0), loop_eval]
    norm_num [Vec3.mk.injEq]
  have s30 : sampleAt (⟨0, 0, 0⟩ : Vec3 ℝ) ⟨1, 0, 0⟩ ⟨0, 0, 0⟩ ⟨-1, 0, 0⟩ 3 0 =
      (⟨0, 0, 0⟩ : Vec3 ℝ) := by
    simp [sampleAt]
  have s31 : sampleAt (⟨0, 0, 0⟩ : Vec3 ℝ) ⟨1, 0, 0⟩ ⟨0, 0, 0⟩ ⟨-1, 0, 0⟩ 3 1 =
      (⟨2 / 3, 0, 0⟩ : Vec3 ℝ) := by
    rw [sampleAt, if_neg (by norm_num : ¬ (1 : ℕ) = 0), loop_eval]
    norm_num [Vec3.mk.injEq]
  have s32 : sampleAt (⟨0, 0, 0⟩ : Vec3 ℝ) ⟨1, 0, 0⟩ ⟨0, 0, 0⟩ ⟨-1, 0, 0⟩ 3 2 =
      (⟨2 / 3, 0, 0⟩ : Vec3 ℝ) := by
    rw [sampleAt, if_neg (by norm_num : ¬ (2 : ℕ) = 0), loop_eval]
    norm_num [Vec3.mk.injEq]
  have s33 : sampleAt (⟨0, 0, 0⟩ : Vec3 ℝ) ⟨1, 0, 0⟩ ⟨0, 0, 0⟩ ⟨-1, 0, 0⟩ 3 3 =
      (⟨0, 0, 0⟩ : Vec3 ℝ) := by
    rw [sampleAt, if_neg (by norm_num : ¬ (3 : ℕ) = 0), loop_eval]
    norm_num [Vec3.mk.injEq]
  have h2 : compute_smooth_curve_length ⟨0, 0, 0⟩ ⟨1, 0, 0⟩ ⟨0, 0, 0⟩ ⟨-1, 0, 0⟩ 2 = 3 / 2 := by
    rw [compute_smooth_curve_length, Finset.sum_range_succ, Finset.sum_range_succ,
      Finset.sum_range_zero, s20, s21, s22]
    norm_num [Vec3.mk_sub_mk, dist3_single]
    rw [abs_of_nonneg (by norm_num : (0 : ℝ) ≤ 3 / 4)]
    norm_num
  have h3 : compute_smooth_curve_length ⟨0, 0, 0⟩ ⟨1, 0, 0⟩ ⟨0, 0, 0⟩ ⟨-1, 0, 0⟩ 3 = 4 / 3 := by
    rw [compute_smooth_curve_length, Finset.sum_range_succ, Finset.sum_range_succ,
      Finset.sum_range_succ, Finset.sum_range_zero, s30, s31, s32, s33]
    norm_num [Vec3.mk_sub_mk, dist3_single]
    rw [abs_of_nonneg (by norm_num : (0 : ℝ) ≤ 2 / 3)]
    norm_num
  rw [h2, h3]
  norm_num

/-- C3 counterexample: calling the estimator with `measure_steps = -2` does not
signal any error — it silently returns the value `0.0` (the loop body never
runs), refuting fail-fast behaviour for negative step counts. -/
theorem c3_counterexample :
    compute_smooth_curve_lengthChecked ⟨0, 0, 0⟩ ⟨0, 0, 0⟩ ⟨1, 0, 0⟩ ⟨0, 0, 0⟩ (-2) =
      Except.ok 0 := by
  rw [compute_smooth_curve_lengthChecked, if_neg (by norm_num : ¬ (-2 : ℤ) = 0)]
  have ht : ((-2 : ℤ)).toNat = 0 := rfl
  rw [ht, compute_smooth_curve_length, Finset.sum_range_zero]

/-- C3 (amended): `measure_steps = 0` and `part_count = 0` raise
`ZeroDivisionError` (fail fast), but negative values silently return a value —
`0.0` from the estimator and `None` from the intersection detector — because
`range` over a negative count is empty. -/
theorem c3_amended_zero_raises (p1 t1 p2 t2 : Vec3 ℝ) (c1 c2 : CurveRec ℚ) (n : ℤ) :
    (n = 0 →
      compute_smooth_curve_lengthChecked p1 t1 p2 t2 n = Except.error "ZeroDivisionError" ∧
      curves_intersectChecked c1 c2 n = Except.error "ZeroDivisionError") ∧
    (n < 0 →
      compute_smooth_curve_lengthChecked p1 t1 p2 t2 n = Except.ok 0 ∧
      curves_intersectChecked c1 c2 n = Except.ok none) := by
  constructor
  · intro h
    subst h
    refine ⟨?_, ?_⟩
    · rw [compute_smooth_curve_lengthChecked, if_pos rfl]
    · rw [curves_intersectChecked, if_pos rfl]
  · intro h
    have hne : n ≠ 0 := by omega
    have ht : n.toNat = 0 := by omega
    refine ⟨?_, ?_⟩
    · rw [compute_smooth_curve_lengthChecked, if_neg hne, ht, compute_smooth_curve_length,
        Finset.sum_range_zero]
    · rw [curves_intersectChecked, if_neg hne, ht]
      rfl

/-- C3 witness: the zero case raises and the negative case silently succeeds,
at concrete inputs. -/
theorem c3_witness :
    ((0 : ℤ) = 0 ∧
      compute_smooth_curve_lengthChecked ⟨0, 0, 0⟩ ⟨0, 0, 0⟩ ⟨1, 0, 0⟩ ⟨0, 0, 0⟩ 0 =
        Except.error "ZeroDivisionError") ∧
    ((-2 : ℤ) < 0 ∧ curves_intersectChecked cexA cexB (-2) = Except.ok none) :=
  ⟨⟨rfl,
    ((c3_amended_zero_raises ⟨0, 0, 0⟩ ⟨0, 0, 0⟩ ⟨1, 0, 0⟩ ⟨0, 0, 0⟩ cexA cexB 0).1 rfl).1⟩,
   ⟨by norm_num,
    ((c3_amended_zero_raises ⟨0, 0, 0⟩ ⟨0, 0, 0⟩ ⟨1, 0, 0⟩ ⟨0, 0, 0⟩ cexA cexB (-2)).2
      (by norm_num)).2⟩⟩

/-- Discretizer `compute_curve`: the initial tangents (the source rotates the
canonical `(0, 1, 0)` by each object's world orientation, an external
collaborator) are taken as inputs; the estimated length over 300 steps scales
them by `le / 3`; one point per `segment` at `coef = segment / curve_steps`
and the exact `point2` appended last. -/
noncomputable def compute_curve (point1 tang1 point2 tang2 : Vec3 ℝ) (curve_steps : ℕ) :
    List (Vec3 ℝ) :=
  let le := compute_smooth_curve_length point1 tang1 point2 tang2 300
  ((List.range curve_steps).map fun (segment : ℕ) =>
    smooth_curve point1 ((le / 3) • tang1) point2 ((le / 3) • tang2)
      ((segment : ℝ) / (curve_steps : ℝ))) ++ [point2]

/-- C6: for every `num_steps ≥ 1` the discretizer returns exactly
`num_steps + 1` points; the last is exactly `point2`; the first equals
`smooth_curve` (with the length-scaled tangents) at `coef = 0`, which equals
`point1`. -/
theorem c6_compute_curve_shape (point1 tang1 point2 tang2 : Vec3 ℝ) (num_steps : ℕ)
    (h : 1 ≤ num_steps) :
    (compute_curve point1 tang1 point2 tang2 num_steps).length = num_steps + 1 ∧
    (compute_curve point1 tang1 point2 tang2 num_steps).getLast? = some point2 ∧
    (compute_curve point1 tang1 point2 tang2 num_steps).head? =
      some (smooth_curve point1
        ((compute_smooth_curve_length point1 tang1 point2 tang2 300 / 3) • tang1) point2
        ((compute_smooth_curve_length point1 tang1 point2 tang2 300 / 3) • tang2) 0) ∧
    (compute_curve point1 tang1 point2 tang2 num_steps).head? = some point1 := by
  obtain ⟨m, rfl⟩ : ∃ m, num_steps = m + 1 := ⟨num_steps - 1, by omega⟩
  have hhead : (compute_curve point1 tang1 point2 tang2 (m + 1)).head? =
      some (smooth_curve point1
        ((compute_smooth_curve_length point1 tang1 point2 tang2 300 / 3) • tang1) point2
        ((compute_smooth_curve_length point1 tang1 point2 tang2 300 / 3) • tang2) 0) := by
    rw [compute_curve, List.range_succ_eq_map, List.map_cons, List.cons_append, List.head?_cons]
    norm_num
  refine ⟨?_, ?_, hhead, ?_⟩
  · rw [compute_curve]
    simp
  · rw [compute_curve]
    exact List.getLast?_concat _
  · rw [hhead, smooth_curve_zero]

/-- C6 witness at `num_steps = 1` and concrete waypoints. -/
theorem c6_witness :
    1 ≤ 1 ∧
      ((compute_curve ⟨0, 0, 0⟩ ⟨0, 1, 0⟩ ⟨4, 0, 0⟩ ⟨0, 1, 0⟩ 1).length = 1 + 1 ∧
        (compute_curve ⟨0, 0, 0⟩ ⟨0, 1, 0⟩ ⟨4, 0, 0⟩ ⟨0, 1, 0⟩ 1).getLast? =
          some ⟨4, 0, 0⟩ ∧
        (compute_curve ⟨0, 0, 0⟩ ⟨0, 1, 0⟩ ⟨4, 0, 0⟩ ⟨0, 1, 0⟩ 1).head? =
          some (smooth_curve ⟨0, 0, 0⟩
            ((compute_smooth_curve_length ⟨0, 0, 0⟩ ⟨0, 1, 0⟩ ⟨4, 0, 0⟩ ⟨0, 1, 0⟩ 300 / 3) •
              ⟨0, 1, 0⟩) ⟨4, 0, 0⟩
            ((compute_smooth_curve_length ⟨0, 0, 0⟩ ⟨0, 1, 0⟩ ⟨4, 0, 0⟩ ⟨0, 1, 0⟩ 300 / 3) •
              ⟨0, 1, 0⟩) 0) ∧
        (compute_curve ⟨0, 0, 0⟩ ⟨0, 1, 0⟩ ⟨4, 0, 0⟩ ⟨0, 1, 0⟩ 1).head? = some ⟨0, 0, 0⟩) :=
  ⟨le_refl 1, c6_compute_curve_shape ⟨0, 0, 0⟩ ⟨0, 1, 0⟩ ⟨4, 0, 0⟩ ⟨0, 1, 0⟩ 1 (le_refl 1)⟩

/-- Radians-to-degrees conversion `math.degrees`. -/
noncomputable def degrees (x : ℝ) : ℝ :=
  x * 180 / Real.pi

/-- Clamp helper `v_clamp` of `set_direction`. -/
def v_clamp {α : Type} [LinearOrder α] (num minimum maximum : α) : α :=
  if num < minimum then minimum
  else if maximum < num then maximum
  else num

/-- Pitch computed by `set_direction` for a non-degenerate forward vector:
`degrees(asin(clamp(forward.y / length, -1, 1)))`. -/
noncomputable def sd_pitch (forward : Vec3 ℝ) : ℝ :=
  degrees (Real.arcsin (v_clamp (forward.y / dist3 forward) (-1) 1))

/-- Azimuthal helper angle of `set_direction`:
`degrees(atan(forward.x / forward.z))`. -/
noncomputable def sd_angle (forward : Vec3 ℝ) : ℝ :=
  degrees (Real.arctan (forward.x / forward.z))

/-- Orientation decomposition `set_direction`, returning `(pitch, roll, yaw)`
with the source's branch structure and epsilon `0.0001`. -/
noncomputable def set_direction (forward : Vec3 ℝ) : ℝ × ℝ × ℝ :=
  if dist3 forward < 1 / 10000 then (0, 0, 0)
  else if |forward.z| < 1 / 10000 then
    if forward.x < 0 then (sd_pitch forward, 0, 90)
    else if 0 < forward.x then (sd_pitch forward, 0, 270)
    else (sd_pitch forward, 0, 0)
  else if forward.z < 0 then
    (sd_pitch forward, 0, sd_angle forward + (if sd_angle forward < 0 then 360 else 0))
  else (sd_pitch forward, 0, sd_angle forward + 180)

/-- Monotonicity of the degree conversion. -/
theorem degrees_le_degrees {a b : ℝ} (h : a ≤ b) : degrees a ≤ degrees b := by
  unfold degrees
  have hpi := Real.pi_pos
  gcongr

/-- Strict monotonicity of the degree conversion. -/
theorem degrees_lt_degrees {a b : ℝ} (h : a < b) : degrees a < degrees b := by
  unfold degrees
  rw [div_lt_div_iff_of_pos_right Real.pi_pos]
  linarith

/-- Ninety degrees is `π / 2` radians. -/
theorem degrees_pi_div_two : degrees (Real.pi / 2) = 90 := by
  unfold degrees
  field_simp
  ring

/-- Minus ninety degrees is `-(π / 2)` radians. -/
theorem degrees_neg_pi_div_two : degrees (-(Real.pi / 2)) = -90 := by
  unfold degrees
  field_simp
  ring

/-- Pitch always lies in `[-90, 90]` (arcsine range times the conversion). -/
theorem sd_pitch_bounds (forward : Vec3 ℝ) :
    -90 ≤ sd_pitch forward ∧ sd_pitch forward ≤ 90 := by
  unfold sd_pitch
  constructor
  · have h := Real.neg_pi_div_two_le_arcsin (v_clamp (forward.y / dist3 forward) (-1) 1)
    have h2 := degrees_le_degrees h
    rwa [degrees_neg_pi_div_two] at h2
  · have h := Real.arcsin_le_pi_div_two (v_clamp (forward.y / dist3 forward) (-1) 1)
    have h2 := degrees_le_degrees h
    rwa [degrees_pi_div_two] at h2

/-- Azimuthal helper angle lies strictly inside `(-90, 90)` (arctangent range). -/
theorem sd_angle_bounds (forward : Vec3 ℝ) :
    -90 < sd_angle forward ∧ sd_angle forward < 90 := by
  unfold sd_angle
  constructor
  · have h := Real.neg_pi_div_two_lt_arctan (forward.x / forward.z)
    have h2 := degrees_lt_degrees h
    rwa [degrees_neg_pi_div_two] at h2
  · have h := Real.arctan_lt_pi_div_two (forward.x / forward.z)
    have h2 := degrees_lt_degrees h
    rwa [degrees_pi_div_two] at h2

/-- C7: for every non-degenerate forward vector (norm at least 0.0001), the yaw
returned by `set_direction` is: in the near-planar case (`|z| < 0.0001`) 90
for `x < 0`, 270 for `x > 0`, 0 for `x = 0`; otherwise, with
`angle = degrees(atan(x / z))`, it is `angle + 180` when `z ≥ 0` and
`angle + (360 if angle < 0 else 0)` when `z < 0`. -/
theorem c7_yaw_formula (forward : Vec3 ℝ) (h : (1 : ℝ) / 10000 ≤ dist3 forward) :
    (|forward.z| < 1 / 10000 →
      (set_direction forward).2.2 =
        if forward.x < 0 then 90 else if 0 < forward.x then 270 else 0) ∧
    ((1 : ℝ) / 10000 ≤ |forward.z| →
      (set_direction forward).2.2 =
        if forward.z < 0 then
          sd_angle forward + (if sd_angle forward < 0 then 360 else 0)
        else sd_angle forward + 180) := by
  unfold set_direction
  rw [if_neg (not_lt.mpr h)]
  constructor
  · intro hz
    rw [if_pos hz]
    split_ifs <;> rfl
  · intro hz
    rw [if_neg (not_lt.mpr hz)]
    split_ifs <;> rfl

/-- C7 witness at the concrete forward vector `(0, 0, -1)` of norm 1. -/
theorem c7_witness :
    (1 : ℝ) / 10000 ≤ dist3 ⟨0, 0, -1⟩ ∧
      ((|(⟨0, 0, -1⟩ : Vec3 ℝ).z| < 1 / 10000 →
        (set_direction ⟨0, 0, -1⟩).2.2 =
          if (⟨0, 0, -1⟩ : Vec3 ℝ).x < 0 then 90
          else if 0 < (⟨0, 0, -1⟩ : Vec3 ℝ).x then 270 else 0) ∧
      ((1 : ℝ) / 10000 ≤ |(⟨0, 0, -1⟩ : Vec3 ℝ).z| →
        (set_direction ⟨0, 0, -1⟩).2.2 =
          if (⟨0, 0, -1⟩ : Vec3 ℝ).z < 0 then
            sd_angle ⟨0, 0, -1⟩ + (if sd_angle ⟨0, 0, -1⟩ < 0 then 360 else 0)
          else sd_angle ⟨0, 0, -1⟩ + 180)) := by
  have hd : dist3 (⟨0, 0, -1⟩ : Vec3 ℝ) = 1 := by
    unfold dist3
    norm_num
  have h : (1 : ℝ) / 10000 ≤ dist3 ⟨0, 0, -1⟩ := by
    rw [hd]
    norm_num
  exact ⟨h, c7_yaw_formula ⟨0, 0, -1⟩ h⟩

/-- C10: for every input forward vector, `set_direction` returns a pitch in
`[-90, 90]` and a yaw in `[0, 360)`; the degenerate branch, the planar special
cases and both arctangent branches all stay in range. -/
theorem c10_pitch_yaw_ranges (forward : Vec3 ℝ) :
    -90 ≤ (set_direction forward).1 ∧ (set_direction forward).1 ≤ 90 ∧
      0 ≤ (set_direction forward).2.2 ∧ (set_direction forward).2.2 < 360 := by
  have hp := sd_pitch_bounds forward
  have ha := sd_angle_bounds forward
  unfold set_direction
  split_ifs <;>
    refine ⟨?_, ?_, ?_, ?_⟩ <;>
    (try norm_num) <;>
    linarith [hp.1, hp.2, ha.1, ha.2]

/-- Convex-combination bound: a Bernstein-weighted combination of four reals
with parameter in `[0, 1]` lies between their minimum and maximum. -/
theorem convex_combo_bounds (t a b c d : ℝ) (h0 : 0 ≤ t) (h1 : t ≤ 1) :
    min (min a b) (min c d) ≤
        (1 - t) * (1 - t) * (1 - t) * a + 3 * t * (1 - t) * (1 - t) * b +
          3 * t * t * (1 - t) * c + t * t * t * d ∧
      (1 - t) * (1 - t) * (1 - t) * a + 3 * t * (1 - t) * (1 - t) * b +
          3 * t * t * (1 - t) * c + t * t * t * d ≤
        max (max a b) (max c d) := by
  have hq : (0 : ℝ) ≤ 1 - t := by linarith
  have hc1 : (0 : ℝ) ≤ (1 - t) * (1 - t) * (1 - t) := mul_nonneg (mul_nonneg hq hq) hq
  have hc2 : (0 : ℝ) ≤ 3 * t * (1 - t) * (1 - t) :=
    mul_nonneg (mul_nonneg (by linarith) hq) hq
  have hc3 : (0 : ℝ) ≤ 3 * t * t * (1 - t) :=
    mul_nonneg (mul_nonneg (by linarith) h0) hq
  have hc4 : (0 : ℝ) ≤ t * t * t := mul_nonneg (mul_nonneg h0 h0) h0
  have hma : a ≤ max (max a b) (max c d) := le_trans (le_max_left a b) (le_max_left _ _)
  have hmb : b ≤ max (max a b) (max c d) := le_trans (le_max_right a b) (le_max_left _ _)
  have hmc : c ≤ max (max a b) (max c d) := le_trans (le_max_left c d) (le_max_right _ _)
  have hmd : d ≤ max (max a b) (max c d) := le_trans (le_max_right c d) (le_max_right _ _)
  have hna : min (min a b) (min c d) ≤ a := le_trans (min_le_left _ _) (min_le_left a b)
  have hnb : min (min a b) (min c d) ≤ b := le_trans (min_le_left _ _) (min_le_right a b)
  have hnc : min (min a b) (min c d) ≤ c := le_trans (min_le_right _ _) (min_le_left c d)
  have hnd : min (min a b) (min c d) ≤ d := le_trans (min_le_right _ _) (min_le_right c d)
  constructor
  · nlinarith [mul_nonneg hc1 (sub_nonneg.mpr hna), mul_nonneg hc2 (sub_nonneg.mpr hnb),
      mul_nonneg hc3 (sub_nonneg.mpr hnc), mul_nonneg hc4 (sub_nonneg.mpr hnd)]
  · nlinarith [mul_nonneg hc1 (sub_nonneg.mpr hma), mul_nonneg hc2 (sub_nonneg.mpr hmb),
      mul_nonneg hc3 (sub_nonneg.mpr hmc), mul_nonneg hc4 (sub_nonneg.mpr hmd)]

/-- Coordinates of `smooth_curve` as explicit Bernstein combinations of the
four control-point coordinates. -/
theorem smooth_curve_coords (p1 t1 p2 t2 : Vec3 ℝ) (coef : ℝ) :
    (smooth_curve p1 t1 p2 t2 coef).x =
        (1 - coef) * (1 - coef) * (1 - coef) * p1.x +
          3 * coef * (1 - coef) * (1 - coef) * (p1 + t1).x +
          3 * coef * coef * (1 - coef) * (p2 - t2).x + coef * coef * coef * p2.x ∧
      (smooth_curve p1 t1 p2 t2 coef).y =
        (1 - coef) * (1 - coef) * (1 - coef) * p1.y +
          3 * coef * (1 - coef) * (1 - coef) * (p1 + t1).y +
          3 * coef * coef * (1 - coef) * (p2 - t2).y + coef * coef * coef * p2.y ∧
      (smooth_curve p1 t1 p2 t2 coef).z =
        (1 - coef) * (1 - coef) * (1 - coef) * p1.z +
          3 * coef * (1 - coef) * (1 - coef) * (p1 + t1).z +
          3 * coef * coef * (1 - coef) * (p2 - t2).z + coef * coef * coef * p2.z := by
  simp only [smooth_curve, evaluate_bezier_curve, compute_bernstein]
  refine ⟨by ring, by ring, by ring⟩

/-- C9: for every `coef ∈ [0, 1]`, each coordinate of `smooth_curve` lies
between the minimum and the maximum of the corresponding coordinates of the
four control points `point1, point1 + tang1, point2 - tang2, point2`
(Bernstein coefficients are nonnegative on `[0, 1]` and sum to 1). -/
theorem c9_convex_hull (point1 tang1 point2 tang2 : Vec3 ℝ) (coef : ℝ)
    (h0 : 0 ≤ coef) (h1 : coef ≤ 1) :
    (min (min point1.x (point1 + tang1).x) (min (point2 - tang2).x point2.x) ≤
        (smooth_curve point1 tang1 point2 tang2 coef).x ∧
      (smooth_curve point1 tang1 point2 tang2 coef).x ≤
        max (max point1.x (point1 + tang1).x) (max (point2 - tang2).x point2.x)) ∧
    (min (min point1.y (point1 + tang1).y) (min (point2 - tang2).y point2.y) ≤
        (smooth_curve point1 tang1 point2 tang2 coef).y ∧
      (smooth_curve point1 tang1 point2 tang2 coef).y ≤
        max (max point1.y (point1 + tang1).y) (max (point2 - tang2).y point2.y)) ∧
    (min (min point1.z (point1 + tang1).z) (min (point2 - tang2).z point2.z) ≤
        (smooth_curve point1 tang1 point2 tang2 coef).z ∧
      (smooth_curve point1 tang1 point2 tang2 coef).z ≤
        max (max point1.z (point1 + tang1).z) (max (point2 - tang2).z point2.z)) := by
  obtain ⟨hx, hy, hz⟩ := smooth_curve_coords point1 tang1 point2 tang2 coef
  refine ⟨?_, ?_, ?_⟩
  · rw [hx]
    exact convex_combo_bounds coef point1.x (point1 + tang1).x (point2 - tang2).x point2.x h0 h1
  · rw [hy]
    exact convex_combo_bounds coef point1.y (point1 + tang1).y (point2 - tang2).y point2.y h0 h1
  · rw [hz]
    exact convex_combo_bounds coef point1.z (point1 + tang1).z (point2 - tang2).z point2.z h0 h1

/-- Concrete start waypoint for the C9 witness. -/
def w9p1 : Vec3 ℝ := ⟨0, 0, 0⟩

/-- Concrete start tangent for the C9 witness. -/
def w9t1 : Vec3 ℝ := ⟨1, 0, 0⟩

/-- Concrete end waypoint for the C9 witness. -/
def w9p2 : Vec3 ℝ := ⟨1, 1, 0⟩

/-- Concrete end tangent for the C9 witness. -/
def w9t2 : Vec3 ℝ := ⟨0, 1, 0⟩

/-- C9 witness at `coef = 1/2` and concrete waypoints. -/
theorem c9_witness :
    (0 : ℝ) ≤ 1 / 2 ∧ (1 : ℝ) / 2 ≤ 1 ∧
      ((min (min w9p1.x (w9p1 + w9t1).x) (min (w9p2 - w9t2).x w9p2.x) ≤
          (smooth_curve w9p1 w9t1 w9p2 w9t2 (1 / 2)).x ∧
        (smooth_curve w9p1 w9t1 w9p2 w9t2 (1 / 2)).x ≤
          max (max w9p1.x (w9p1 + w9t1).x) (max (w9p2 - w9t2).x w9p2.x)) ∧
      (min (min w9p1.y (w9p1 + w9t1).y) (min (w9p2 - w9t2).y w9p2.y) ≤
          (smooth_curve w9p1 w9t1 w9p2 w9t2 (1 / 2)).y ∧
        (smooth_curve w9p1 w9t1 w9p2 w9t2 (1 / 2)).y ≤
          max (max w9p1.y (w9p1 + w9t1).y) (max (w9p2 - w9t2).y w9p2.y)) ∧
      (min (min w9p1.z (w9p1 + w9t1).z) (min (w9p2 - w9t2).z w9p2.z) ≤
          (smooth_curve w9p1 w9t1 w9p2 w9t2 (1 / 2)).z ∧
        (smooth_curve w9p1 w9t1 w9p2 w9t2 (1 / 2)).z ≤
          max (max w9p1.z (w9p1 + w9t1).z) (max (w9p2 - w9t2).z w9p2.z))) :=
  ⟨by norm_num, by norm_num,
    c9_convex_hull w9p1 w9t1 w9p2 w9t2 (1 / 2) (by norm_num) (by norm_num)⟩
